import Mathlib

/-!
Shallow embedding of the chaos-orm entity graph.

Source files embedded here:
  * `src/src/document.js` — the `Document` graph node: `_set`, `remove`,
    `setParent`, `removeParent`, `trigger`, `modified`.
  * `src/unnamed/part_001` — the `Model` entity layer: `sync`, `broadcast`,
    `save`, `reload`, `validates`.
  * `src/src/collection/through.js` — the `Through` pivot proxy:
    `set`, `push`, `_item`.

External collaborators (the `Schema`, the `Validator`, the `Relationship`
variants and the `Collector`, whose sources are not part of the verified
tree) are modelled as parameters or small oracle records, following the
interface described in the repository documentation.
-/

/-- Runtime values stored in a document field.  `undef` stands for
JavaScript `undefined` (an absent field — every observer in the source
tests fields with `!== undefined`), `node` is a reference to a
graph-capable object (a `Document` or a `Collection`, i.e. a value
exposing `setParent`/`removeParent`/`modified` methods) identified by its
uuid, and the remaining constructors are scalars.  JavaScript `===`
comparison corresponds to decidable equality on this type: identity for
`node` references, value equality for scalars. -/
inductive Value where
  | undef
  | null
  | num (n : Int)
  | str (s : String)
  | node (id : Nat)
deriving DecidableEq, Repr

/-- Insertion-ordered association-list assignment: replaces the first
binding of key `k` in place (keeping its position, exactly like a
JavaScript object or `Map` assignment) or appends a fresh binding at the
end. -/
def mset [DecidableEq α] : List (α × β) → α → β → List (α × β)
  | [], k, v => [(k, v)]
  | p :: rest, k, v => if p.1 = k then (k, v) :: rest else p :: mset rest k v

/-- Association-list lookup returning the first binding of `k`. -/
def mget [DecidableEq α] : List (α × β) → α → Option β
  | [], _ => none
  | p :: rest, k => if p.1 = k then some p.2 else mget rest k

/-- Association-list deletion of key `k` (JavaScript `delete obj[k]` /
`Map.delete`). -/
def mdel [DecidableEq α] : List (α × β) → α → List (α × β)
  | [], _ => []
  | p :: rest, k => if p.1 = k then mdel rest k else p :: mdel rest k

@[simp] theorem mget_mset_self [DecidableEq α] (l : List (α × β)) (k : α) (v : β) :
    mget (mset l k v) k = some v := by
  induction l with
  | nil => simp [mset, mget]
  | cons p rest ih =>
    by_cases h : p.1 = k
    · simp [mset, mget, h]
    · simp [mset, mget, h, ih]

@[simp] theorem mget_mset_ne [DecidableEq α] (l : List (α × β)) (k k' : α) (v : β)
    (h : k' ≠ k) : mget (mset l k v) k' = mget l k' := by
  have hk : ¬ (k = k') := fun hh => h hh.symm
  induction l with
  | nil => simp [mset, mget, hk]
  | cons p rest ih =>
    by_cases hp : p.1 = k
    · subst hp
      simp [mset, mget, hk]
    · by_cases hp' : p.1 = k'
      · simp [mset, mget, hp, hp', h]
      · simp [mset, mget, hp, hp', ih]

@[simp] theorem mget_mdel_self [DecidableEq α] (l : List (α × β)) (k : α) :
    mget (mdel l k) k = none := by
  induction l with
  | nil => simp [mdel, mget]
  | cons p rest ih =>
    by_cases h : p.1 = k
    · simp [mdel, h, ih]
    · simp [mdel, mget, h, ih]

theorem mget_mdel_ne [DecidableEq α] (l : List (α × β)) (k k' : α)
    (h : k' ≠ k) : mget (mdel l k) k' = mget l k' := by
  induction l with
  | nil => simp [mdel]
  | cons p rest ih =>
    by_cases hp : p.1 = k
    · subst hp
      have hk : ¬ (p.1 = k') := fun hh => h hh.symm
      simp [mdel, mget, hk, ih]
    · simp [mdel, mget, hp, ih]

theorem mget_mem [DecidableEq α] (l : List (α × β)) (k : α) (v : β)
    (h : mget l k = some v) : (k, v) ∈ l := by
  induction l with
  | nil => simp [mget] at h
  | cons p rest ih =>
    by_cases hp : p.1 = k
    · simp only [mget, hp, if_pos] at h
      cases p with
      | mk a b =>
        simp only at hp
        subst hp
        simp only [Option.some.injEq] at h
        subst h
        exact List.mem_cons_self _ _
    · simp only [mget, hp, if_neg, if_false] at h
      exact List.mem_cons_of_mem _ (ih h)

/-- Field lookup on a document's `_data`: a missing binding reads as the
JavaScript `undefined`. -/
def alookup (l : List (String × Value)) (k : String) : Value :=
  (mget l k).getD .undef

theorem alookup_mset_self (l : List (String × Value)) (k : String) (v : Value) :
    alookup (mset l k v) k = v := by simp [alookup]

theorem alookup_mset_ne (l : List (String × Value)) (k k' : String) (v : Value)
    (h : k' ≠ k) : alookup (mset l k v) k' = alookup l k' := by
  simp [alookup, mget_mset_ne _ _ _ _ h]

theorem alookup_ne_undef_mem (l : List (String × Value)) (k : String)
    (h : alookup l k ≠ .undef) : k ∈ l.map Prod.fst := by
  unfold alookup at h
  cases hm : mget l k with
  | none => simp [hm] at h
  | some v =>
    have := mget_mem l k v hm
    exact List.mem_map.mpr ⟨(k, v), this, rfl⟩

theorem alookup_not_mem (l : List (String × Value)) (k : String)
    (h : k ∉ l.map Prod.fst) : alookup l k = .undef := by
  by_contra hne
  exact h (alookup_ne_undef_mem l k hne)

/-- One graph node, as held by the working set: the current field data
(`this._data`), the snapshot taken at the last load or sync
(`this._persisted`), the parent back-references (`this._parents`: owning
node uuid to field path at that parent, a JavaScript `Map`) and the
`Model` persistence flag (`this._exists`). -/
structure DocObj where
  data : List (String × Value) := []
  persisted : List (String × Value) := []
  parents : List (Nat × String) := []
  existsFlag : Bool := false
deriving DecidableEq, Repr

instance : Inhabited DocObj := ⟨{}⟩

/-- The working set: all live documents keyed by uuid, plus the
`Collector` registry (modelled from the spec: the Collector is a
uuid-to-node identity map from which a node is removed on eviction; its
source file is not part of the verified tree, only membership matters
here). -/
structure Heap where
  docs : List (Nat × DocObj) := []
  collector : List Nat := []
deriving DecidableEq, Repr

/-- Reads a document from the working set (absent uuids read as a fresh
empty document, which keeps every operation total). -/
def hget (h : Heap) (i : Nat) : DocObj :=
  (mget h.docs i).getD {}

def hupdate (h : Heap) (i : Nat) (d : DocObj) : Heap :=
  { h with docs := mset h.docs i d }

@[simp] theorem hget_hupdate_self (h : Heap) (i : Nat) (d : DocObj) :
    hget (hupdate h i d) i = d := by simp [hget, hupdate]

@[simp] theorem hget_hupdate_ne (h : Heap) (i i' : Nat) (d : DocObj)
    (hne : i' ≠ i) : hget (hupdate h i d) i' = hget h i' := by
  simp [hget, hupdate, mget_mset_ne _ _ _ _ hne]

@[simp] theorem collector_hupdate (h : Heap) (i : Nat) (d : DocObj) :
    (hupdate h i d).collector = h.collector := rfl

/-- External `Schema` collaborator, reduced to the operations the
embedded code consumes: the per-field cast pipeline, the virtual-field
flag, the declared-relation test and the primary key name. -/
structure Schema where
  cast : String → Value → Value
  isVirtual : String → Bool := fun _ => false
  hasRelation : String → Bool := fun _ => false
  key : Option String := none

/-- Document.setParent (document.js 328-331): registers `parent` in the
child's parents map with the field path it occupies there. -/
def setParent (h : Heap) (child parent : Nat) (path : String) : Heap :=
  let d := hget h child
  hupdate h child { d with parents := mset d.parents parent path }

/-- Document.removeParent (document.js 339-346): deletes the `parent`
entry from the child's parents map; when the map becomes empty the child
is evicted from the Collector. -/
def removeParent (h : Heap) (child parent : Nat) : Heap :=
  let d := hget h child
  let ps := mdel d.parents parent
  let h1 := hupdate h child { d with parents := ps }
  if ps.isEmpty then
    { h1 with collector := h1.collector.filter (fun x => x != child) }
  else h1

/-- Registration half of the parent-link bookkeeping in Document._set
(document.js 546-548): only graph-capable values (`typeof
value.setParent === 'function'`) carry a link. -/
def hookNew (h : Heap) (did : Nat) (name : String) : Value → Heap
  | .node cid => setParent h cid did name
  | _ => h

/-- Unregistration half of the parent-link bookkeeping in Document._set
(document.js 550-552). -/
def hookOld (h : Heap) (did : Nat) : Value → Heap
  | .node pid => removeParent h pid did
  | _ => h

/-- The parent-link bookkeeping performed by Document._set after a real
change (document.js 546-552): the new value's parent link is registered
first, then the previous value's link is unregistered. -/
def applyParentHooks (h : Heap) (did : Nat) (name : String)
    (newV oldV : Value) : Heap :=
  hookOld (hookNew h did name newV) did oldV

/-- Tail of Document._set after the value has been stored (document.js
542-553): virtual fields short-circuit before any parent bookkeeping or
event, otherwise the parent hooks run and a 'modified' trigger fires for
the field. -/
def docSetCommit (sch : Schema) (h1 : Heap) (did : Nat) (name : String)
    (value previous : Value) : Heap × Option String :=
  if sch.isVirtual name then (h1, none)
  else (applyParentHooks h1 did name value previous, some name)

/-- Document._set for a single-segment field name (document.js 507-554):
casts the incoming value through the schema, no-ops when the cast value
`===`-equals the previous one, otherwise stores it and commits
(virtual-field short-circuit, parent-link bookkeeping, 'modified'
trigger).  The second component reports the field a 'modified' trigger
is fired for; `none` means `trigger` was never invoked, hence no
'modified' event fires anywhere in the graph. -/
def docSet (sch : Schema) (h : Heap) (did : Nat) (name : String)
    (v : Value) : Heap × Option String :=
  if alookup (hget h did).data name = sch.cast name v then (h, none)
  else
    docSetCommit sch
      (hupdate h did { hget h did with
        data := mset (hget h did).data name (sch.cast name v) })
      did name (sch.cast name v) (alookup (hget h did).data name)

/-- Second half of Document.remove (document.js 643-647): re-reads the
field after the parent unregistration, then deletes the binding and
fires 'modified' only when the field was actually present. -/
def docRemoveFinish (h1 : Heap) (did : Nat) (name : String) :
    Heap × Option String :=
  let d1 := hget h1 did
  if alookup d1.data name = .undef then (h1, none)
  else (hupdate h1 did { d1 with data := mdel d1.data name }, some name)

/-- Document.remove for a single-segment field name (document.js
625-648): unregisters this document from the removed value's parents
(when the value is graph-capable), then deletes the binding. -/
def docRemove (h : Heap) (did : Nat) (name : String) : Heap × Option String :=
  docRemoveFinish
    (match alookup (hget h did).data name with
      | .node pid => removeParent h pid did
      | _ => h) did name

/-- Bulk assignment (document.js 459-472): `set(mapping)` runs `_set`
over every binding in order; the second component collects the fields a
'modified' trigger was fired for. -/
def docSetAll (sch : Schema) (did : Nat) :
    Heap → List (String × Value) → Heap × List String
  | h, [] => (h, [])
  | h, (k, v) :: rest =>
    let r := docSet sch h did k v
    let r2 := docSetAll sch did r.1 rest
    (r2.1, (match r.2 with | some n => [n] | none => []) ++ r2.2)

/-- JavaScript `extend({}, a, b)`: a copy of `a` with every binding of
`b` assigned over it in order. -/
def extendAssoc (a b : List (String × Value)) : List (String × Value) :=
  b.foldl (fun acc kv => mset acc kv.1 kv.2) a

/-- One pass of the parent loop inside Document.trigger (document.js
573-575): re-fires the event on every parent with the field path
prefixed, threading the visited map and accumulating the events fired so
far.  `rec` is the recursive re-fire performed on each parent. -/
def triggerStep
    (rec : Nat → List String → List Nat → Option (List Nat × List (Nat × List String)))
    (name : List String) :
    List (Nat × String) → List Nat → List (Nat × List String) →
    Option (List Nat × List (Nat × List String))
  | [], ig, fs => some (ig, fs)
  | pf :: rest, ig, fs =>
    match rec pf.1 (pf.2 :: name) ig with
    | none => none
    | some r => triggerStep rec name rest r.1 (fs ++ r.2)

/-- Document.trigger (document.js 562-576), indexed by a fuel bound on
the recursion depth.  `ignore` is the per-call visited map (created
fresh — the empty list — at the top-level call and threaded through the
recursive parent re-fires).  The result carries the final visited map
and the list of local 'modified' events that fired, each as the emitting
node together with the field path it received; `none` means the fuel ran
out before the cascade completed. -/
def triggerF (h : Heap) : Nat → Nat → List String → List Nat →
    Option (List Nat × List (Nat × List String))
  | 0, _, _, _ => none
  | fuel + 1, node, name, ignore =>
    if node ∈ ignore then some (ignore, [])
    else triggerStep (triggerF h fuel) name (hget h node).parents
      (node :: ignore) [(node, name)]

/-- All parent references stored anywhere in the working set point below
`n`; this is the finiteness assumption under which the trigger cascade
must terminate. -/
def heapClosed (h : Heap) (n : Nat) : Bool :=
  h.docs.all (fun e => e.2.parents.all (fun pf => pf.1 < n))

theorem heapClosed_parents (h : Heap) (n : Nat)
    (hc : heapClosed h n = true) :
    ∀ i : Nat, ∀ pf ∈ (hget h i).parents, pf.1 < n := by
  intro i pf hpf
  unfold hget at hpf
  cases hm : mget h.docs i with
  | none => simp [hm] at hpf
  | some d =>
    rw [hm] at hpf
    simp only [Option.getD_some] at hpf
    have hmem := mget_mem _ _ _ hm
    unfold heapClosed at hc
    rw [List.all_eq_true] at hc
    have h2 := hc _ hmem
    rw [List.all_eq_true] at h2
    have h3 := h2 pf hpf
    simpa using h3

/-- Relation between the visited map before and after one trigger call:
the visited map only grows, by exactly the nodes that fired, and it
stays duplicate-free. -/
def GoodStep (ig ig2 : List Nat) (fs : List (Nat × List String)) : Prop :=
  ig2 = (fs.map Prod.fst).reverse ++ ig ∧ (ig.Nodup → ig2.Nodup)

theorem triggerStep_good
    (rec : Nat → List String → List Nat → Option (List Nat × List (Nat × List String)))
    (name : List String)
    (Hrec : ∀ m nm ig r, rec m nm ig = some r → GoodStep ig r.1 r.2) :
    ∀ l ig fs r, triggerStep rec name l ig fs = some r →
      ∃ fsadd, r.2 = fs ++ fsadd ∧ GoodStep ig r.1 fsadd := by
  intro l
  induction l with
  | nil =>
    intro ig fs r hr
    simp only [triggerStep] at hr
    cases hr
    exact ⟨[], by simp, by simp [GoodStep], fun hnd => hnd⟩
  | cons pf rest ih =>
    intro ig fs r hr
    simp only [triggerStep] at hr
    cases h1 : rec pf.1 (pf.2 :: name) ig with
    | none => rw [h1] at hr; cases hr
    | some r1 =>
      rw [h1] at hr
      obtain ⟨fsadd2, hfs2, hg2⟩ := ih r1.1 (fs ++ r1.2) r hr
      have hg1 := Hrec _ _ _ _ h1
      refine ⟨r1.2 ++ fsadd2, by rw [hfs2]; simp, ?_, ?_⟩
      · rw [hg2.1, hg1.1]
        simp [List.reverse_append]
      · intro hnd
        exact hg2.2 (hg1.2 hnd)

theorem triggerF_good (h : Heap) :
    ∀ fuel node name ig r, triggerF h fuel node name ig = some r →
      GoodStep ig r.1 r.2 := by
  intro fuel
  induction fuel with
  | zero => intro node name ig r hr; simp [triggerF] at hr
  | succ fuel ih =>
    intro node name ig r hr
    by_cases hmem : node ∈ ig
    · simp only [triggerF, if_pos hmem] at hr
      cases hr
      exact ⟨by simp, fun hnd => hnd⟩
    · simp only [triggerF, if_neg hmem] at hr
      obtain ⟨fsadd, hfs, hg⟩ :=
        triggerStep_good _ name (fun m nm ig' r' => ih m nm ig' r') _ _ _ _ hr
      refine ⟨?_, ?_⟩
      · rw [hg.1, hfs]
        simp [List.reverse_append]
      · intro hnd
        have hcons : (node :: ig).Nodup := List.nodup_cons.mpr ⟨hmem, hnd⟩
        exact hg.2 hcons

theorem triggerStep_bound
    (rec : Nat → List String → List Nat → Option (List Nat × List (Nat × List String)))
    (name : List String) (n : Nat)
    (Hrec : ∀ m nm ig r, rec m nm ig = some r → m < n →
      (∀ x ∈ ig, x < n) → ∀ x ∈ r.1, x < n) :
    ∀ l ig fs r, triggerStep rec name l ig fs = some r →
      (∀ pf ∈ l, (pf : Nat × String).1 < n) → (∀ x ∈ ig, x < n) →
      ∀ x ∈ r.1, x < n := by
  intro l
  induction l with
  | nil =>
    intro ig fs r hr _ hb
    simp only [triggerStep] at hr
    cases hr
    exact hb
  | cons pf rest ih =>
    intro ig fs r hr hl hb
    simp only [triggerStep] at hr
    cases h1 : rec pf.1 (pf.2 :: name) ig with
    | none => rw [h1] at hr; cases hr
    | some r1 =>
      rw [h1] at hr
      have hb1 := Hrec _ _ _ _ h1 (hl pf (List.mem_cons_self _ _)) hb
      exact ih r1.1 (fs ++ r1.2) r hr
        (fun q hq => hl q (List.mem_cons_of_mem _ hq)) hb1

theorem triggerF_bound (h : Heap) (n : Nat) (hc : heapClosed h n = true) :
    ∀ fuel node name ig r, triggerF h fuel node name ig = some r →
      node < n → (∀ x ∈ ig, x < n) → ∀ x ∈ r.1, x < n := by
  intro fuel
  induction fuel with
  | zero => intro node name ig r hr; simp [triggerF] at hr
  | succ fuel ih =>
    intro node name ig r hr hn hb
    by_cases hmem : node ∈ ig
    · simp only [triggerF, if_pos hmem] at hr
      cases hr
      exact hb
    · simp only [triggerF, if_neg hmem] at hr
      exact triggerStep_bound _ name n
        (fun m nm ig' r' h' => ih m nm ig' r' h') _ _ _ _ hr
        (fun pf hpf => heapClosed_parents h n hc node pf hpf)
        (fun x hx => by
          rcases List.mem_cons.mp hx with hx | hx
          · exact hx ▸ hn
          · exact hb x hx)

theorem nodup_bounded_length_lt (ig : List Nat) (n node : Nat)
    (hnd : ig.Nodup) (hb : ∀ x ∈ ig, x < n) (hn : node < n)
    (hmem : node ∉ ig) : ig.length < n := by
  have hcard : ig.toFinset.card = ig.length := List.toFinset_card_of_nodup hnd
  have hsub : ig.toFinset ⊆ Finset.range n := by
    intro x hx
    exact Finset.mem_range.mpr (hb x (List.mem_toFinset.mp hx))
  have hss : ig.toFinset ⊂ Finset.range n := by
    rw [Finset.ssubset_iff_of_subset hsub]
    exact ⟨node, Finset.mem_range.mpr hn, fun hmm => hmem (List.mem_toFinset.mp hmm)⟩
  have := Finset.card_lt_card hss
  rw [hcard, Finset.card_range] at this
  exact this

theorem triggerStep_suff (h : Heap) (n fuel : Nat) (name : List String)
    (hc : heapClosed h n = true)
    (Hsuff : ∀ node nm ig, node < n → ig.Nodup → (∀ x ∈ ig, x < n) →
      fuel > n - ig.length → (triggerF h fuel node nm ig).isSome) :
    ∀ l ig fs, (∀ pf ∈ l, (pf : Nat × String).1 < n) → ig.Nodup →
      (∀ x ∈ ig, x < n) → fuel > n - ig.length →
      (triggerStep (triggerF h fuel) name l ig fs).isSome := by
  intro l
  induction l with
  | nil => intro ig fs _ _ _ _; simp [triggerStep]
  | cons pf rest ih =>
    intro ig fs hl hnd hb hf
    have h1 := Hsuff pf.1 (pf.2 :: name) ig (hl pf (List.mem_cons_self _ _)) hnd hb hf
    obtain ⟨r1, hr1⟩ := Option.isSome_iff_exists.mp h1
    have hg := triggerF_good h fuel pf.1 (pf.2 :: name) ig r1 hr1
    have hlen : ig.length ≤ r1.1.length := by
      rw [hg.1]
      simp
    simp only [triggerStep, hr1]
    exact ih r1.1 (fs ++ r1.2)
      (fun q hq => hl q (List.mem_cons_of_mem _ hq))
      (hg.2 hnd)
      (triggerF_bound h n hc fuel pf.1 _ ig r1 hr1
        (hl pf (List.mem_cons_self _ _)) hb)
      (lt_of_le_of_lt (Nat.sub_le_sub_left hlen n) hf)

theorem triggerF_suff (h : Heap) (n : Nat) (hc : heapClosed h n = true) :
    ∀ fuel node name ig, node < n → ig.Nodup → (∀ x ∈ ig, x < n) →
      fuel > n - ig.length → (triggerF h fuel node name ig).isSome := by
  intro fuel
  induction fuel with
  | zero => intro node name ig _ _ _ hf; exact absurd hf (by omega)
  | succ fuel ih =>
    intro node name ig hn hnd hb hf
    by_cases hmem : node ∈ ig
    · simp [triggerF, hmem]
    · simp only [triggerF, if_neg hmem]
      have hlen := nodup_bounded_length_lt ig n node hnd hb hn hmem
      exact triggerStep_suff h n fuel name hc ih (hget h node).parents
        (node :: ig) [(node, name)]
        (fun pf hpf => heapClosed_parents h n hc node pf hpf)
        (List.nodup_cons.mpr ⟨hmem, hnd⟩)
        (fun x hx => by
          rcases List.mem_cons.mp hx with hx | hx
          · exact hx ▸ hn
          · exact hb x hx)
        (by simp only [List.length_cons]; omega)

/-- C1: on every document graph reachable through parent links — cyclic
and diamond-shaped multi-parent graphs included, since the parents maps
are arbitrary within the bound `n` — a single top-level call to
Document.trigger('modified', name), with its visited map created fresh,
terminates (fuel `n + 1` never runs out) and every node fires its local
'modified' event at most once (the fired-node list has no duplicate). -/
theorem trigger_terminates_fires_once (h : Heap) (n node : Nat)
    (name : String) (hc : heapClosed h n = true) (hn : node < n) :
    ∃ ig fires, triggerF h (n + 1) node [name] [] = some (ig, fires) ∧
      (fires.map Prod.fst).Nodup := by
  have hs := triggerF_suff h n hc (n + 1) node [name] [] hn (by simp)
    (by simp) (by omega)
  obtain ⟨r, hr⟩ := Option.isSome_iff_exists.mp hs
  have hg := triggerF_good h (n + 1) node [name] [] r hr
  refine ⟨r.1, r.2, by simpa using hr, ?_⟩
  have hnd : r.1.Nodup := hg.2 (by simp)
  rw [hg.1] at hnd
  simpa using hnd

/-- Two documents embedding each other: node 0 holds node 1 as parent and
vice versa, the cyclic shape of the spec's cycle-safety scenario. -/
def cycleHeap : Heap :=
  { docs := [(0, { parents := [(1, "b")] }), (1, { parents := [(0, "a")] })],
    collector := [0, 1] }

/-- Witness for C1 at the concrete two-node cycle. -/
theorem trigger_terminates_fires_once_witness :
    heapClosed cycleHeap 2 = true ∧ 0 < 2 ∧
    (∃ ig fires, triggerF cycleHeap 3 0 ["x"] [] = some (ig, fires) ∧
      (fires.map Prod.fst).Nodup) :=
  ⟨by decide, by decide,
    trigger_terminates_fires_once cycleHeap 2 0 "x" (by decide) (by decide)⟩

/-- C2: writing a field whose schema-cast form `===`-equals the
previously stored cast value is a complete no-op — the working set
(data, parents maps and Collector alike) is returned unchanged and
`trigger` is never invoked, so no 'modified' event fires on the document
or on any ancestor.  In particular `set(D, f, get(D, f))` is such a
no-op whenever the cast leaves the stored value identical, since `get`
on a present field returns the stored cast value. -/
theorem set_identical_cast_noop (sch : Schema) (h : Heap) (did : Nat)
    (name : String) (v : Value)
    (hcast : sch.cast name v = alookup (hget h did).data name) :
    docSet sch h did name v = (h, none) := by
  simp [docSet, hcast]

/-- Identity cast pipeline: the schema hands every value back as-is. -/
def idSchema : Schema := { cast := fun _ v => v }

/-- A working set holding one document with a single scalar field. -/
def oneFieldHeap : Heap :=
  { docs := [(0, { data := [("a", .num 1)] })], collector := [0] }

/-- Witness for C2: a concrete document re-assigned its own stored
value under an identity cast. -/
theorem set_identical_cast_noop_witness :
    idSchema.cast "a" (.num 1) = alookup (hget oneFieldHeap 0).data "a" ∧
    docSet idSchema oneFieldHeap 0 "a" (.num 1) = (oneFieldHeap, none) :=
  ⟨by decide,
    set_identical_cast_noop idSchema oneFieldHeap 0 "a" (.num 1) (by decide)⟩

@[simp] theorem hget_set_collector (h : Heap) (c : List Nat) (i : Nat) :
    hget { h with collector := c } i = hget h i := rfl

theorem removeParent_hget_other (h : Heap) (child parent i : Nat)
    (hne : i ≠ child) :
    hget (removeParent h child parent) i = hget h i := by
  unfold removeParent
  by_cases he : (mdel (hget h child).parents parent).isEmpty
  · simp [he, hget_hupdate_ne _ _ _ _ hne]
  · simp [he, hget_hupdate_ne _ _ _ _ hne]

theorem removeParent_parents (h : Heap) (child parent : Nat) :
    (hget (removeParent h child parent) child).parents =
      mdel (hget h child).parents parent := by
  unfold removeParent
  by_cases he : (mdel (hget h child).parents parent).isEmpty
  · simp [he]
  · simp [he]

theorem removeParent_collector_keep (h : Heap) (child parent : Nat)
    (hne : mdel (hget h child).parents parent ≠ []) :
    (removeParent h child parent).collector = h.collector := by
  unfold removeParent
  cases hl : mdel (hget h child).parents parent with
  | nil => exact absurd hl hne
  | cons a t => simp [hl, List.isEmpty]

theorem removeParent_evicts (h : Heap) (child parent : Nat)
    (he : mdel (hget h child).parents parent = []) :
    (removeParent h child parent).collector =
      h.collector.filter (fun x => x != child) := by
  unfold removeParent
  simp [he, List.isEmpty]

theorem not_mem_filter_ne_self (l : List Nat) (x : Nat) :
    x ∉ l.filter (fun y => y != x) := by
  intro hx
  have h2 := List.mem_filter.mp hx
  simp at h2

@[simp] theorem setParent_collector (h : Heap) (child parent : Nat)
    (path : String) : (setParent h child parent path).collector =
      h.collector := rfl

theorem setParent_hget_other (h : Heap) (child parent i : Nat)
    (path : String) (hne : i ≠ child) :
    hget (setParent h child parent path) i = hget h i := by
  unfold setParent
  exact hget_hupdate_ne _ _ _ _ hne

theorem setParent_parents (h : Heap) (child parent : Nat) (path : String) :
    (hget (setParent h child parent path) child).parents =
      mset (hget h child).parents parent path := by
  unfold setParent
  simp

theorem docRemove_run (h : Heap) (did : Nat) (name : String) (E : Nat)
    (hval : alookup (hget h did).data name = .node E) (hnd : E ≠ did) :
    docRemove h did name =
      (hupdate (removeParent h E did) did
        { hget h did with data := mdel (hget h did).data name },
        some name) := by
  have h1eq : hget (removeParent h E did) did = hget h did :=
    removeParent_hget_other h E did did (Ne.symm hnd)
  simp [docRemove, docRemoveFinish, hval, h1eq]

/-- C3: parent-link symmetry with the containers.  Placing node `E` at
path `P1` under container `A` and at `P2` under container `B` leaves
`E`'s parents map equal to the two-entry map `A ↦ P1, B ↦ P2`; removing
`E` from `A` unregisters only the `A` entry, leaves `B ↦ P2` intact and
keeps `E` in the Collector; removing it from `B` as well empties the
parents map and evicts `E` from the Collector — eviction happens exactly
when the parents map becomes empty; and overwriting the `A` slot with a
scalar likewise unregisters only the `A` entry and keeps `E`
collected. -/
theorem parent_links_symmetric (sch : Schema) (h0 : Heap)
    (A B E : Nat) (P1 P2 : String)
    (hAB : A ≠ B) (hEA : E ≠ A) (hEB : E ≠ B)
    (hpar : (hget h0 E).parents = [])
    (hcol : E ∈ h0.collector)
    (hprevA : alookup (hget h0 A).data P1 = .undef)
    (hprevB : alookup (hget h0 B).data P2 = .undef)
    (hcast1 : sch.cast P1 (.node E) = .node E)
    (hcast2 : sch.cast P2 (.node E) = .node E)
    (hcast3 : sch.cast P1 (.num 7) = .num 7)
    (hv1 : sch.isVirtual P1 = false)
    (hv2 : sch.isVirtual P2 = false) :
    let h1 := (docSet sch h0 A P1 (.node E)).1
    let h2 := (docSet sch h1 B P2 (.node E)).1
    let h3 := (docRemove h2 A P1).1
    let h4 := (docRemove h3 B P2).1
    let h5 := (docSet sch h2 A P1 (.num 7)).1
    ((hget h2 E).parents = [(A, P1), (B, P2)] ∧ E ∈ h2.collector) ∧
    ((hget h3 E).parents = [(B, P2)] ∧ E ∈ h3.collector) ∧
    ((hget h4 E).parents = [] ∧ E ∉ h4.collector) ∧
    ((hget h5 E).parents = [(B, P2)] ∧ E ∈ h5.collector) := by
  intro h1 h2 h3 h4 h5
  have hAE : A ≠ E := Ne.symm hEA
  have hBE : B ≠ E := Ne.symm hEB
  have hBA : B ≠ A := Ne.symm hAB
  have e1 : docSet sch h0 A P1 (.node E) =
      (setParent (hupdate h0 A
        { hget h0 A with data := mset (hget h0 A).data P1 (.node E) })
        E A P1, some P1) := by
    simp [docSet, docSetCommit, applyParentHooks, hookNew, hookOld, hprevA, hcast1, hv1]
  have hh1 : h1 = setParent (hupdate h0 A
      { hget h0 A with data := mset (hget h0 A).data P1 (.node E) })
      E A P1 := by
    show (docSet sch h0 A P1 (.node E)).1 = _
    rw [e1]
  have g1Ep : (hget h1 E).parents = [(A, P1)] := by
    rw [hh1, setParent_parents, hget_hupdate_ne _ _ _ _ hEA, hpar]
    simp [mset]
  have g1Ad : (hget h1 A).data = mset (hget h0 A).data P1 (.node E) := by
    rw [hh1, setParent_hget_other _ _ _ _ _ hAE, hget_hupdate_self]
  have g1B : hget h1 B = hget h0 B := by
    rw [hh1, setParent_hget_other _ _ _ _ _ hBE, hget_hupdate_ne _ _ _ _ hBA]
  have g1c : h1.collector = h0.collector := by
    rw [hh1]
    simp
  have e2 : docSet sch h1 B P2 (.node E) =
      (setParent (hupdate h1 B
        { hget h1 B with data := mset (hget h1 B).data P2 (.node E) })
        E B P2, some P2) := by
    have hp : alookup (hget h1 B).data P2 = .undef := by
      rw [g1B]
      exact hprevB
    simp [docSet, docSetCommit, applyParentHooks, hookNew, hookOld, hp, hcast2, hv2]
  have hh2 : h2 = setParent (hupdate h1 B
      { hget h1 B with data := mset (hget h1 B).data P2 (.node E) })
      E B P2 := by
    show (docSet sch h1 B P2 (.node E)).1 = _
    rw [e2]
  have g2Ep : (hget h2 E).parents = [(A, P1), (B, P2)] := by
    rw [hh2, setParent_parents, hget_hupdate_ne _ _ _ _ hEB, g1Ep]
    simp [mset, hAB]
  have g2Ad : (hget h2 A).data = mset (hget h0 A).data P1 (.node E) := by
    rw [hh2, setParent_hget_other _ _ _ _ _ hAE,
      hget_hupdate_ne _ _ _ _ hAB, g1Ad]
  have g2Bd : (hget h2 B).data = mset (hget h0 B).data P2 (.node E) := by
    rw [hh2, setParent_hget_other _ _ _ _ _ hBE, hget_hupdate_self]
    simp [g1B]
  have g2c : h2.collector = h0.collector := by
    rw [hh2]
    simp [g1c]
  have hval2A : alookup (hget h2 A).data P1 = .node E := by
    rw [g2Ad, alookup_mset_self]
  have e3 := docRemove_run h2 A P1 E hval2A hEA
  have hh3 : h3 = hupdate (removeParent h2 E A) A
      { hget h2 A with data := mdel (hget h2 A).data P1 } := by
    show (docRemove h2 A P1).1 = _
    rw [e3]
  have gmdelA : mdel (hget h2 E).parents A = [(B, P2)] := by
    rw [g2Ep]
    simp [mdel, hBA]
  have g3Ep : (hget h3 E).parents = [(B, P2)] := by
    rw [hh3, hget_hupdate_ne _ _ _ _ hEA, removeParent_parents, gmdelA]
  have g3c : h3.collector = h0.collector := by
    rw [hh3, collector_hupdate,
      removeParent_collector_keep h2 E A (by rw [gmdelA]; simp), g2c]
  have g3Bd : (hget h3 B).data = mset (hget h0 B).data P2 (.node E) := by
    rw [hh3, hget_hupdate_ne _ _ _ _ hBA,
      removeParent_hget_other _ _ _ _ hBE, g2Bd]
  have hval3B : alookup (hget h3 B).data P2 = .node E := by
    rw [g3Bd, alookup_mset_self]
  have e4 := docRemove_run h3 B P2 E hval3B hEB
  have hh4 : h4 = hupdate (removeParent h3 E B) B
      { hget h3 B with data := mdel (hget h3 B).data P2 } := by
    show (docRemove h3 B P2).1 = _
    rw [e4]
  have gmdelB : mdel (hget h3 E).parents B = [] := by
    rw [g3Ep]
    simp [mdel]
  have g4Ep : (hget h4 E).parents = [] := by
    rw [hh4, hget_hupdate_ne _ _ _ _ hEB, removeParent_parents, gmdelB]
  have g4c : E ∉ h4.collector := by
    rw [hh4, collector_hupdate, removeParent_evicts h3 E B gmdelB]
    exact not_mem_filter_ne_self _ _
  have e5 : docSet sch h2 A P1 (.num 7) =
      (removeParent (hupdate h2 A
        { hget h2 A with data := mset (hget h2 A).data P1 (.num 7) })
        E A, some P1) := by
    simp [docSet, docSetCommit, applyParentHooks, hookNew, hookOld, hval2A, hcast3, hv1]
  have hh5 : h5 = removeParent (hupdate h2 A
      { hget h2 A with data := mset (hget h2 A).data P1 (.num 7) }) E A := by
    show (docSet sch h2 A P1 (.num 7)).1 = _
    rw [e5]
  have g5Ep : (hget h5 E).parents = [(B, P2)] := by
    rw [hh5, removeParent_parents, hget_hupdate_ne _ _ _ _ hEA, gmdelA]
  have g5c : E ∈ h5.collector := by
    rw [hh5, removeParent_collector_keep _ _ _
      (by rw [hget_hupdate_ne _ _ _ _ hEA, gmdelA]; simp),
      collector_hupdate, g2c]
    exact hcol
  exact ⟨⟨g2Ep, by rw [g2c]; exact hcol⟩, ⟨g3Ep, by rw [g3c]; exact hcol⟩,
    ⟨g4Ep, g4c⟩, ⟨g5Ep, g5c⟩⟩

/-- Keys of JavaScript `Object.keys(extend({}, persisted, data))`:
persisted keys first, then the data keys not already seen, each key
once. -/
def keysUnion (p d : List (String × Value)) : List String :=
  (p.map Prod.fst ++ d.map Prod.fst).foldl
    (fun acc k => if k ∈ acc then acc else acc ++ [k]) []

/-- Per-key body of the loop inside Document.modified (document.js
688-713).  A key missing from `data` counts whenever it is present in
`persisted` (no relation check there); a key present only in `data`
counts unless the schema declares it a relation; a key present in both
counts on `!==` inequality, and a graph-capable value additionally
counts when the child itself reports modified — `childMod` stands for
the child's own `value.modified()` report. -/
def modifiedEntry (sch : Schema) (childMod : Nat → Bool) (d : DocObj)
    (key : String) : Bool :=
  if alookup d.data key = .undef then
    decide (alookup d.persisted key ≠ .undef)
  else if alookup d.persisted key = .undef then
    !(sch.hasRelation key)
  else
    match alookup d.data key with
    | .node cid => decide (alookup d.persisted key ≠ .node cid) || childMod cid
    | v => decide (alookup d.persisted key ≠ v)

/-- The `updated` key list accumulated by Document.modified. -/
def modifiedKeysList (sch : Schema) (childMod : Nat → Bool) (d : DocObj) :
    List String :=
  (keysUnion d.persisted d.data).foldl
    (fun acc key =>
      if modifiedEntry sch childMod d key then acc ++ [key] else acc) []

/-- Document.modified with no field argument (document.js 682-719):
true exactly when the accumulated `updated` key list is non-empty. -/
def docModified (sch : Schema) (childMod : Nat → Bool) (d : DocObj) : Bool :=
  !(modifiedKeysList sch childMod d).isEmpty

/-- The per-key classification exactly as claim C4 words it (this
definition follows the claim, not the source, for refutation): a key
present only in `persisted` counts as removed unless it is a declared
relation; a key present only in `data` always counts as added; the
both-present case is as in the source. -/
def specClaimModifiedEntry (sch : Schema) (childMod : Nat → Bool)
    (d : DocObj) (key : String) : Bool :=
  if alookup d.data key = .undef then
    decide (alookup d.persisted key ≠ .undef) && !(sch.hasRelation key)
  else if alookup d.persisted key = .undef then
    true
  else
    match alookup d.data key with
    | .node cid => decide (alookup d.persisted key ≠ .node cid) || childMod cid
    | v => decide (alookup d.persisted key ≠ v)

/-- Document.modified as claim C4 describes it. -/
def specClaimModified (sch : Schema) (childMod : Nat → Bool) (d : DocObj) :
    Bool :=
  (keysUnion d.persisted d.data).any (specClaimModifiedEntry sch childMod d)

/-- Schema declaring the single relation field `r`, identity cast. -/
def relSchema : Schema :=
  { cast := fun _ v => v, hasRelation := fun k => k == "r" }

/-- Counterexample to C4: the code ignores declared-relation keys in the
added case and counts them in the removed case, the reverse of the
claim's classification.  With relation `r` present only in `data` the
claim counts it (added) but the code reports unmodified; with `r`
present only in `persisted` the code counts it (removed) but the claim
ignores it. -/
theorem modified_relation_keys_counterexample :
    specClaimModified relSchema (fun _ => false)
        { data := [("r", .num 1)] } = true ∧
    docModified relSchema (fun _ => false)
        { data := [("r", .num 1)] } = false ∧
    docModified relSchema (fun _ => false)
        { persisted := [("r", .num 1)] } = true ∧
    specClaimModified relSchema (fun _ => false)
        { persisted := [("r", .num 1)] } = false := by
  decide

theorem foldl_append_filter (p : String → Bool) (l acc : List String) :
    l.foldl (fun a k => if p k then a ++ [k] else a) acc =
      acc ++ l.filter p := by
  induction l generalizing acc with
  | nil => simp
  | cons x t ih =>
    by_cases hx : p x
    · simp [hx, ih]
    · simp [hx, ih]

theorem mem_dedup_foldl (l acc : List String) (k : String) :
    k ∈ l.foldl (fun a x => if x ∈ a then a else a ++ [x]) acc ↔
      k ∈ acc ∨ k ∈ l := by
  induction l generalizing acc with
  | nil => simp
  | cons x t ih =>
    by_cases hx : x ∈ acc
    · rw [List.foldl_cons, if_pos hx, ih]
      constructor
      · rintro (h | h)
        · exact Or.inl h
        · exact Or.inr (List.mem_cons_of_mem _ h)
      · rintro (h | h)
        · exact Or.inl h
        · rcases List.mem_cons.mp h with rfl | h
          · exact Or.inl hx
          · exact Or.inr h
    · rw [List.foldl_cons, if_neg hx, ih]
      simp only [List.mem_append, List.mem_singleton, List.mem_cons]
      tauto

theorem mem_keysUnion (p d : List (String × Value)) (k : String) :
    k ∈ keysUnion p d ↔ k ∈ p.map Prod.fst ∨ k ∈ d.map Prod.fst := by
  unfold keysUnion
  rw [mem_dedup_foldl]
  simp

theorem modifiedEntry_iff (sch : Schema) (childMod : Nat → Bool)
    (d : DocObj) (k : String) :
    modifiedEntry sch childMod d k = true ↔
      ((alookup d.data k = .undef ∧ alookup d.persisted k ≠ .undef) ∨
       (alookup d.data k ≠ .undef ∧ alookup d.persisted k = .undef ∧
         sch.hasRelation k = false) ∨
       (∃ c, alookup d.data k = .node c ∧ alookup d.persisted k ≠ .undef ∧
         (alookup d.persisted k ≠ .node c ∨ childMod c = true)) ∨
       ((∀ c, alookup d.data k ≠ .node c) ∧ alookup d.data k ≠ .undef ∧
         alookup d.persisted k ≠ .undef ∧
         alookup d.persisted k ≠ alookup d.data k)) := by
  by_cases h1 : alookup d.data k = .undef
  · simp [modifiedEntry, h1]
  · by_cases h2 : alookup d.persisted k = .undef
    · simp [modifiedEntry, h1, h2, Bool.not_eq_true']
    · cases h3 : alookup d.data k with
      | undef => exact absurd h3 h1
      | null => simp [modifiedEntry, h1, h2, h3]
      | num n => simp [modifiedEntry, h1, h2, h3]
      | str s => simp [modifiedEntry, h1, h2, h3]
      | node cid =>
        have hL : modifiedEntry sch childMod d k =
            (decide (alookup d.persisted k ≠ .node cid) || childMod cid) := by
          unfold modifiedEntry
          rw [if_neg h1, if_neg h2, h3]
        rw [hL]
        simp only [Bool.or_eq_true, decide_eq_true_eq]
        constructor
        · intro hl
          exact Or.inr (Or.inr (Or.inl ⟨cid, rfl, h2, hl⟩))
        · rintro (⟨hd, _⟩ | ⟨_, hp, _⟩ | ⟨c, hc, _, hor⟩ | ⟨hall, _, _, _⟩)
          · exact absurd hd (by simp)
          · exact absurd hp h2
          · injection hc with hcc
            subst hcc
            exact hor
          · exact absurd rfl (hall cid)

theorem docModified_iff_aux (sch : Schema) (childMod : Nat → Bool)
    (d : DocObj) :
    docModified sch childMod d = true ↔ ∃ k,
      ((alookup d.data k = .undef ∧ alookup d.persisted k ≠ .undef) ∨
       (alookup d.data k ≠ .undef ∧ alookup d.persisted k = .undef ∧
         sch.hasRelation k = false) ∨
       (∃ c, alookup d.data k = .node c ∧ alookup d.persisted k ≠ .undef ∧
         (alookup d.persisted k ≠ .node c ∨ childMod c = true)) ∨
       ((∀ c, alookup d.data k ≠ .node c) ∧ alookup d.data k ≠ .undef ∧
         alookup d.persisted k ≠ .undef ∧
         alookup d.persisted k ≠ alookup d.data k)) := by
  have hrep : modifiedKeysList sch childMod d =
      (keysUnion d.persisted d.data).filter (modifiedEntry sch childMod d) := by
    unfold modifiedKeysList
    rw [foldl_append_filter]
    simp
  constructor
  · intro hl
    unfold docModified at hl
    rw [hrep] at hl
    cases hf : (keysUnion d.persisted d.data).filter
        (modifiedEntry sch childMod d) with
    | nil => rw [hf] at hl; simp [List.isEmpty] at hl
    | cons a t =>
      have ha : a ∈ (keysUnion d.persisted d.data).filter
          (modifiedEntry sch childMod d) := by
        rw [hf]
        exact List.mem_cons_self _ _
      have hm := List.mem_filter.mp ha
      exact ⟨a, (modifiedEntry_iff sch childMod d a).mp hm.2⟩
  · rintro ⟨k, hk⟩
    have hentry : modifiedEntry sch childMod d k = true :=
      (modifiedEntry_iff sch childMod d k).mpr hk
    have hmem : k ∈ keysUnion d.persisted d.data := by
      rw [mem_keysUnion]
      rcases hk with ⟨_, hp⟩ | ⟨hd, _, _⟩ | ⟨c, hc, _, _⟩ | ⟨_, hd, _, _⟩
      · exact Or.inl (alookup_ne_undef_mem _ _ hp)
      · exact Or.inr (alookup_ne_undef_mem _ _ hd)
      · exact Or.inr (alookup_ne_undef_mem _ _ (by rw [hc]; simp))
      · exact Or.inr (alookup_ne_undef_mem _ _ hd)
    have hin : k ∈ (keysUnion d.persisted d.data).filter
        (modifiedEntry sch childMod d) := List.mem_filter.mpr ⟨hmem, hentry⟩
    unfold docModified
    rw [hrep]
    cases hf : (keysUnion d.persisted d.data).filter
        (modifiedEntry sch childMod d) with
    | nil => rw [hf] at hin; simp at hin
    | cons a t => simp [List.isEmpty]

/-- C4 (amended): Document.modified with no field argument returns true
exactly when some key is counted by the per-key classification the code
actually implements — a key present only in `persisted` always counts as
removed (declared relations included), a key present only in `data`
counts as added unless it is a declared relation (the relation exclusion
sits in the added case, not the removed case as the claim stated), and a
key present in both counts on scalar inequality or, for graph-capable
values, on identity difference or a modified child. -/
theorem modified_classification (sch : Schema) (childMod : Nat → Bool)
    (d : DocObj) :
    docModified sch childMod d = true ↔ ∃ k,
      ((alookup d.data k = .undef ∧ alookup d.persisted k ≠ .undef) ∨
       (alookup d.data k ≠ .undef ∧ alookup d.persisted k = .undef ∧
         sch.hasRelation k = false) ∨
       (∃ c, alookup d.data k = .node c ∧ alookup d.persisted k ≠ .undef ∧
         (alookup d.persisted k ≠ .node c ∨ childMod c = true)) ∨
       ((∀ c, alookup d.data k ≠ .node c) ∧ alookup d.data k ≠ .undef ∧
         alookup d.persisted k ≠ .undef ∧
         alookup d.persisted k ≠ alookup d.data k)) :=
  docModified_iff_aux sch childMod d

theorem docModified_of_persisted_eq_data (sch : Schema)
    (childMod : Nat → Bool) (d : DocObj) (hpd : d.persisted = d.data) :
    (docModified sch childMod d = true ↔
      ∃ k c, alookup d.data k = .node c ∧ childMod c = true) := by
  rw [docModified_iff_aux]
  constructor
  · rintro ⟨k, hk⟩
    rcases hk with ⟨hd, hp⟩ | ⟨hd, hp, _⟩ | ⟨c, hc, hp, hor⟩ | ⟨_, hd, _, hne⟩
    · rw [hpd] at hp
      exact absurd hd hp
    · rw [hpd] at hp
      exact absurd hp hd
    · rcases hor with hor | hor
      · rw [hpd, hc] at hor
        exact absurd rfl hor
      · exact ⟨k, c, hc, hor⟩
    · rw [hpd] at hne
      exact absurd rfl hne
  · rintro ⟨k, c, hc, hcm⟩
    refine ⟨k, Or.inr (Or.inr (Or.inl ⟨c, hc, ?_, Or.inr hcm⟩))⟩
    rw [hpd, hc]
    simp

/-- Model.sync (part_001 lines 291-304): optionally updates the exists
flag, merges the id under the schema's primary key into the incoming
data, bulk-assigns `extend({}, this._data, data)` through `set`, then
snapshots `this._persisted = extend({}, this._data)`. -/
def modelSync (sch : Schema) (h : Heap) (did : Nat) (id : Option Value)
    (row : List (String × Value)) (optExists : Option Bool) : Heap :=
  let h1 := match optExists with
    | some e => hupdate h did { hget h did with existsFlag := e }
    | none => h
  let row1 := match id, sch.key with
    | some i, some k => mset row k i
    | _, _ => row
  let h2 := (docSetAll sch did h1 (extendAssoc (hget h1 did).data row1)).1
  hupdate h2 did { hget h2 did with persisted := (hget h2 did).data }

/-- A working set holding one entity whose field `c` is a nested
document (node 7). -/
def syncHeap : Heap :=
  { docs := [(5, { data := [("c", .node 7)] })], collector := [5] }

/-- Counterexample to C5: immediately after
`sync(id, data, exists: true)` on an entity holding a nested document
that itself reports modified, `modified()` returns true — not false as
the claim states — because sync snapshots only this entity's own data
and does not recurse into children. -/
theorem sync_child_modified_counterexample :
    docModified idSchema (fun c => c == 7)
      (hget (modelSync idSchema syncHeap 5 none [] (some true)) 5) = true := by
  decide

/-- C5 (amended): for every entity, id, data mapping and exists option,
immediately after Model.sync the persisted snapshot equals the data
mapping (per-key identical references, hence deep-equal), and
`modified()` is false exactly when no field holds a graph-capable child
that itself reports modified — with scalar-only fields `modified()` is
false as claimed, but sync does not recurse into nested documents, so a
dirty child keeps `modified()` true. -/
theorem sync_snapshot_modified_iff_child (sch : Schema) (h : Heap)
    (did : Nat) (id : Option Value) (row : List (String × Value))
    (optExists : Option Bool) (childMod : Nat → Bool) :
    (hget (modelSync sch h did id row optExists) did).persisted =
      (hget (modelSync sch h did id row optExists) did).data ∧
    (docModified sch childMod
        (hget (modelSync sch h did id row optExists) did) = true ↔
      ∃ k c, alookup (hget (modelSync sch h did id row optExists) did).data k
          = .node c ∧ childMod c = true) := by
  have hpd : (hget (modelSync sch h did id row optExists) did).persisted =
      (hget (modelSync sch h did id row optExists) did).data := by
    simp [modelSync]
  exact ⟨hpd, docModified_of_persisted_eq_data sch childMod _ hpd⟩

theorem setParent_fields (h : Heap) (c p : Nat) (f : String) (i : Nat) :
    (hget (setParent h c p f) i).data = (hget h i).data ∧
    (hget (setParent h c p f) i).persisted = (hget h i).persisted ∧
    (hget (setParent h c p f) i).existsFlag = (hget h i).existsFlag := by
  unfold setParent
  by_cases hi : i = c
  · subst hi
    simp
  · rw [hget_hupdate_ne _ _ _ _ hi]
    exact ⟨rfl, rfl, rfl⟩

theorem removeParent_fields (h : Heap) (c p : Nat) (i : Nat) :
    (hget (removeParent h c p) i).data = (hget h i).data ∧
    (hget (removeParent h c p) i).persisted = (hget h i).persisted ∧
    (hget (removeParent h c p) i).existsFlag = (hget h i).existsFlag := by
  by_cases hi : i = c
  · subst hi
    unfold removeParent
    by_cases he : (mdel (hget h i).parents p).isEmpty
    · simp [he]
    · simp [he]
  · rw [removeParent_hget_other _ _ _ _ hi]
    exact ⟨rfl, rfl, rfl⟩

theorem hookNew_fields (h : Heap) (did : Nat) (name : String) (v : Value)
    (i : Nat) :
    (hget (hookNew h did name v) i).data = (hget h i).data ∧
    (hget (hookNew h did name v) i).persisted = (hget h i).persisted ∧
    (hget (hookNew h did name v) i).existsFlag = (hget h i).existsFlag := by
  cases v with
  | node cid => exact setParent_fields h cid did name i
  | undef => exact ⟨rfl, rfl, rfl⟩
  | null => exact ⟨rfl, rfl, rfl⟩
  | num n => exact ⟨rfl, rfl, rfl⟩
  | str s => exact ⟨rfl, rfl, rfl⟩

theorem hookOld_fields (h : Heap) (did : Nat) (v : Value) (i : Nat) :
    (hget (hookOld h did v) i).data = (hget h i).data ∧
    (hget (hookOld h did v) i).persisted = (hget h i).persisted ∧
    (hget (hookOld h did v) i).existsFlag = (hget h i).existsFlag := by
  cases v with
  | node pid => exact removeParent_fields h pid did i
  | undef => exact ⟨rfl, rfl, rfl⟩
  | null => exact ⟨rfl, rfl, rfl⟩
  | num n => exact ⟨rfl, rfl, rfl⟩
  | str s => exact ⟨rfl, rfl, rfl⟩

theorem applyParentHooks_fields (h : Heap) (did : Nat) (name : String)
    (newV oldV : Value) (i : Nat) :
    (hget (applyParentHooks h did name newV oldV) i).data = (hget h i).data ∧
    (hget (applyParentHooks h did name newV oldV) i).persisted =
      (hget h i).persisted ∧
    (hget (applyParentHooks h did name newV oldV) i).existsFlag =
      (hget h i).existsFlag := by
  unfold applyParentHooks
  have h1 := hookNew_fields h did name newV i
  have h2 := hookOld_fields (hookNew h did name newV) did oldV i
  exact ⟨h2.1.trans h1.1, h2.2.1.trans h1.2.1, h2.2.2.trans h1.2.2⟩

theorem docSet_fields (sch : Schema) (h : Heap) (did : Nat) (name : String)
    (v : Value) :
    (hget (docSet sch h did name v).1 did).persisted =
      (hget h did).persisted ∧
    (hget (docSet sch h did name v).1 did).existsFlag =
      (hget h did).existsFlag ∧
    ∀ k, k ≠ name →
      alookup (hget (docSet sch h did name v).1 did).data k =
        alookup (hget h did).data k := by
  unfold docSet
  by_cases hq : alookup (hget h did).data name = sch.cast name v
  · rw [if_pos hq]
    exact ⟨rfl, rfl, fun k hk => rfl⟩
  · rw [if_neg hq]
    unfold docSetCommit
    by_cases hv : sch.isVirtual name = true
    · rw [if_pos hv]
      refine ⟨by simp, by simp, fun k hk => ?_⟩
      dsimp only
      rw [hget_hupdate_self]
      exact alookup_mset_ne _ _ _ _ hk
    · rw [if_neg hv]
      have hf := applyParentHooks_fields
        (hupdate h did { hget h did with
          data := mset (hget h did).data name (sch.cast name v) })
        did name (sch.cast name v) (alookup (hget h did).data name) did
      refine ⟨?_, ?_, ?_⟩
      · dsimp only
        rw [hf.2.1]
        simp
      · dsimp only
        rw [hf.2.2]
        simp
      · intro k hk
        dsimp only
        rw [hf.1, hget_hupdate_self]
        exact alookup_mset_ne _ _ _ _ hk

theorem docSetAll_fields (sch : Schema) (did : Nat) :
    ∀ (l : List (String × Value)) (h : Heap),
      (hget (docSetAll sch did h l).1 did).persisted =
        (hget h did).persisted ∧
      (hget (docSetAll sch did h l).1 did).existsFlag =
        (hget h did).existsFlag ∧
      ∀ k, k ∉ l.map Prod.fst →
        alookup (hget (docSetAll sch did h l).1 did).data k =
          alookup (hget h did).data k := by
  intro l
  induction l with
  | nil => intro h; exact ⟨rfl, rfl, fun k hk => rfl⟩
  | cons kv rest ih =>
    rcases kv with ⟨k0, v0⟩
    intro h
    have h1 := docSet_fields sch h did k0 v0
    have h2 := ih (docSet sch h did k0 v0).1
    refine ⟨?_, ?_, ?_⟩
    · show (hget (docSetAll sch did (docSet sch h did k0 v0).1 rest).1
        did).persisted = _
      rw [h2.1, h1.1]
    · show (hget (docSetAll sch did (docSet sch h did k0 v0).1 rest).1
        did).existsFlag = _
      rw [h2.2.1, h1.2.1]
    · intro k hk
      simp only [List.map_cons, List.mem_cons, not_or] at hk
      show alookup (hget (docSetAll sch did (docSet sch h did k0 v0).1
        rest).1 did).data k = _
      rw [h2.2.2 k hk.2, h1.2.2 k hk.1]

/-- Model.reload (part_001 lines 377-387): re-fetches the entity by id
(the fetch result is the `entity.get()` mapping of the freshly loaded
row, or nothing when the row no longer resolves, in which case reload
rejects); on success it marks the entity existing, assigns the fetched
mapping through `set` and snapshots `persisted` from the resulting
data. -/
def modelReload (sch : Schema) (h : Heap) (did : Nat)
    (fetched : Option (List (String × Value))) : Except String Heap :=
  match fetched with
  | none => .error "The entity does not exist."
  | some row =>
    let h1 := hupdate h did { hget h did with existsFlag := true }
    let h2 := (docSetAll sch did h1 row).1
    .ok (hupdate h2 did { hget h2 did with persisted := (hget h2 did).data })

/-- One entity with two scalar fields, for the reload counterexample. -/
def reloadHeap : Heap :=
  { docs := [(3, { data := [("a", .num 1), ("b", .num 2)] })],
    collector := [3] }

/-- Counterexample to C8: reloading with a fetched row that lacks field
`b` leaves the pre-existing `b` value in place — `set(entity.get())`
merges, it does not replace — while the claim says fields absent from
the fetched row do not survive. -/
theorem reload_merge_counterexample :
    (modelReload idSchema reloadHeap 3 (some [("a", .num 1)])).toOption.map
      (fun h2 => alookup (hget h2 3).data "b") = some (.num 2) ∧
    Value.num 2 ≠ .undef := by
  decide

/-- C8 (amended): reload fails with a NotFound error when the row no
longer resolves; on success it marks the entity existing, merges — not
replaces — the fetched row into `data`, so fields present before the
reload but absent from the fetched row survive unchanged, and snapshots
`persisted` from the merged data. -/
theorem reload_notfound_and_merges (sch : Schema) (h : Heap) (did : Nat)
    (row : List (String × Value)) :
    (∃ e, modelReload sch h did none = .error e) ∧
    ∃ h2, modelReload sch h did (some row) = .ok h2 ∧
      (hget h2 did).existsFlag = true ∧
      (hget h2 did).persisted = (hget h2 did).data ∧
      ∀ k, k ∉ row.map Prod.fst →
        alookup (hget h2 did).data k = alookup (hget h did).data k := by
  have hf := docSetAll_fields sch did row
    (hupdate h did { hget h did with existsFlag := true })
  refine ⟨⟨_, rfl⟩, _, rfl, ?_, ?_, ?_⟩
  · simp only [hget_hupdate_self]
    rw [hf.2.1]
    simp
  · simp only [hget_hupdate_self]
  · intro k hk
    simp only [hget_hupdate_self]
    rw [hf.2.2 k hk, hget_hupdate_self]

/-- A working set holding the to-be-embedded node 2; containers 0 and 1
have no data yet. -/
def triHeap : Heap := { docs := [(2, {})], collector := [2] }

/-- Witness for C3 at two concrete containers sharing one child. -/
theorem parent_links_symmetric_witness :
    ((0 : Nat) ≠ 1 ∧ (2 : Nat) ≠ 0 ∧ (2 : Nat) ≠ 1 ∧
      (hget triHeap 2).parents = [] ∧ 2 ∈ triHeap.collector ∧
      alookup (hget triHeap 0).data "p" = .undef ∧
      alookup (hget triHeap 1).data "q" = .undef ∧
      idSchema.cast "p" (.node 2) = .node 2 ∧
      idSchema.cast "q" (.node 2) = .node 2 ∧
      idSchema.cast "p" (.num 7) = .num 7 ∧
      idSchema.isVirtual "p" = false ∧ idSchema.isVirtual "q" = false) ∧
    (let h1 := (docSet idSchema triHeap 0 "p" (.node 2)).1
     let h2 := (docSet idSchema h1 1 "q" (.node 2)).1
     let h3 := (docRemove h2 0 "p").1
     let h4 := (docRemove h3 1 "q").1
     let h5 := (docSet idSchema h2 0 "p" (.num 7)).1
     ((hget h2 2).parents = [(0, "p"), (1, "q")] ∧ 2 ∈ h2.collector) ∧
     ((hget h3 2).parents = [(1, "q")] ∧ 2 ∈ h3.collector) ∧
     ((hget h4 2).parents = [] ∧ 2 ∉ h4.collector) ∧
     ((hget h5 2).parents = [(1, "q")] ∧ 2 ∈ h5.collector)) :=
  ⟨by decide,
    parent_links_symmetric idSchema triHeap 0 1 2 "p" "q" (by decide)
      (by decide) (by decide) (by decide) (by decide) (by decide) (by decide)
      (by decide) (by decide) (by decide) (by decide) (by decide)⟩

/-- Embed option value as callers supply it: a boolean or a relation
list. -/
inductive EmbedVal where
  | ebool (b : Bool)
  | elist (l : List String)
deriving DecidableEq, Repr

/-- Options mapping handed to Model.broadcast / Model.save; `none`
marks an absent key. -/
structure BroadcastOpts where
  validate : Option Bool := none
  embed : Option EmbedVal := none
deriving DecidableEq, Repr

/-- Resolution value of the broadcast promise: JavaScript `undefined`,
the distinguished `false`, or any other value (never produced by the
embedded code). -/
inductive RVal where
  | undef
  | bfalse
  | other (v : Value)
deriving DecidableEq, Repr

/-- External outcome oracle for one broadcast run: the recursive
relation-subtree validation verdict (Model._validates, whose
Relationship collaborators live outside the verified tree), the error
mappings the embedded children would report through the Model.errors()
fan-out, the external Validator's verdict and error mapping, and
Schema.broadcast's own resolution (`none` = the physical write
rejects). -/
structure BEnv where
  relValid : Bool
  relErrors : List (String × List String) := []
  validatorSuccess : Bool
  validatorErrors : List (String × List String) := []
  schemaResolved : Option Value := some .null
deriving DecidableEq, Repr

/-- Model.validates (part_001 lines 416-434): recursively validates the
relation sub-trees, then always runs the local Validator as well,
replaces the entity's error mapping with the Validator's mapping (via
invalidate), and succeeds only when both outcomes succeed. -/
def modelValidates (env : BEnv) : Bool × List (String × List String) :=
  (env.validatorSuccess && env.relValid, env.validatorErrors)

/-- Model.errors() aggregate (part_001 lines 509-533): the entity's own
error mapping extended with the embedded children's reports. -/
def errorsAggregate (own : List (String × List String)) (env : BEnv) :
    List (String × List String) :=
  own ++ env.relErrors

/-- Model.broadcast (part_001 lines 346-360): merges the option
defaults (validate defaults to true), validates unless disabled; a
validation failure resolves the promise with `false` — a resolution,
never a rejection — without invoking Schema.broadcast; otherwise
Schema.broadcast receives the merged options, its rejection propagates,
and on its resolution the co-generator falls off the end, resolving the
promise with `undefined`.  Result: the promise outcome, the options
Schema.broadcast was invoked with (`none` = the datastore was never
touched), and the entity's error mapping after the call (`errs0` is the
mapping before the call, kept when validation is skipped). -/
def modelBroadcast (env : BEnv) (errs0 : List (String × List String))
    (opts : BroadcastOpts) :
    Except Unit RVal × Option BroadcastOpts × List (String × List String) :=
  let mopts : BroadcastOpts :=
    { validate := some (opts.validate.getD true), embed := opts.embed }
  if opts.validate.getD true then
    if (modelValidates env).1 then
      match env.schemaResolved with
      | some _ => (.ok .undef, some mopts, (modelValidates env).2)
      | none => (.error (), some mopts, (modelValidates env).2)
    else (.ok .bfalse, none, (modelValidates env).2)
  else
    match env.schemaResolved with
    | some _ => (.ok .undef, some mopts, errs0)
    | none => (.error (), some mopts, errs0)

/-- Model.save (part_001 lines 368-370): delegates to broadcast with
the options `extend({}, { embed: false }, options)` — embed defaulted
to false, caller-supplied keys taking precedence. -/
def modelSave (env : BEnv) (errs0 : List (String × List String))
    (opts : BroadcastOpts) :
    Except Unit RVal × Option BroadcastOpts × List (String × List String) :=
  modelBroadcast env errs0
    { validate := opts.validate,
      embed := some (opts.embed.getD (.ebool false)) }

/-- C6: with validation enabled (the default), a validation failure
makes broadcast resolve with `false` — never a rejection —
Schema.broadcast is never invoked so the datastore is untouched, and the
entity's error mapping (its own errors plus the children's reports) is
populated; the last part holds under the external contracts that a
failing Validator reports at least one error and a failing relation
sub-tree leaves at least one child error (spec section 7: a validation
failure comes with a populated error mapping). -/
theorem broadcast_validation_failure (env : BEnv)
    (errs0 : List (String × List String)) (opts : BroadcastOpts)
    (henabled : opts.validate ≠ some false)
    (hfail : (env.validatorSuccess && env.relValid) = false)
    (hvc : env.validatorSuccess = false → env.validatorErrors ≠ [])
    (hrc : env.relValid = false → env.relErrors ≠ []) :
    modelBroadcast env errs0 opts =
      (.ok .bfalse, none, env.validatorErrors) ∧
    errorsAggregate env.validatorErrors env ≠ [] := by
  have he : opts.validate.getD true = true := by
    cases hv : opts.validate with
    | none => rfl
    | some b =>
      cases b with
      | false => exact absurd hv henabled
      | true => rfl
  constructor
  · unfold modelBroadcast modelValidates
    simp [he, hfail]
  · unfold errorsAggregate
    cases hvs : env.validatorSuccess with
    | false =>
      intro habs
      rcases List.append_eq_nil.mp habs with ⟨h1, _⟩
      exact hvc hvs h1
    | true =>
      have hrv : env.relValid = false := by
        rw [hvs] at hfail
        simpa using hfail
      intro habs
      rcases List.append_eq_nil.mp habs with ⟨_, h2⟩
      exact hrc hrv h2

/-- Oracle describing a run whose local Validator fails with one
name-required error while the relation sub-trees pass. -/
def failEnv : BEnv :=
  { relValid := true, validatorSuccess := false,
    validatorErrors := [("name", ["is required"])] }

/-- Witness for C6: an entity failing the local name-required rule. -/
theorem broadcast_validation_failure_witness :
    (({} : BroadcastOpts).validate ≠ some false ∧
      (failEnv.validatorSuccess && failEnv.relValid) = false) ∧
    (modelBroadcast failEnv [] {} =
      (.ok .bfalse, none, [("name", ["is required"])]) ∧
    errorsAggregate [("name", ["is required"])] failEnv ≠ []) :=
  ⟨by decide,
    by
      have hmain := broadcast_validation_failure failEnv [] {}
        (by decide) (by decide) (fun _ => by decide) (fun h => by cases h)
      exact ⟨by rw [hmain.1]; rfl, hmain.2⟩⟩

/-- Oracle describing a fully valid run whose physical write resolves. -/
def okEnv : BEnv := { relValid := true, validatorSuccess := true }

/-- Counterexample to C7: save is not broadcast-with-embed-forced-false.
A caller-supplied embed option survives the `extend({}, {embed: false},
options)` merge — later sources win — so the options save delivers to
Schema.broadcast differ from those broadcast receives when embed is
truly forced to false. -/
theorem save_embed_override_counterexample :
    modelSave okEnv []
        { validate := some false, embed := some (.ebool true) } ≠
      modelBroadcast okEnv []
        { validate := some false, embed := some (.ebool false) } := by
  intro habs
  have h2 := congrArg (fun r => r.2.1) habs
  simp [modelSave, modelBroadcast, okEnv] at h2

/-- C7 (amended): save delegates to broadcast with embed merely
defaulted to false: the options delivered to Schema.broadcast carry the
caller's embed value when one is supplied and `embed: false` otherwise
— so a plain `save()` (no embed option) does not cascade into
relations, but an explicit embed option passes through. -/
theorem save_embed_defaults_false (env : BEnv)
    (errs0 : List (String × List String)) (opts : BroadcastOpts)
    (hvalid : (env.validatorSuccess && env.relValid) = true) :
    (modelSave env errs0 opts).2.1 =
      some { validate := some (opts.validate.getD true),
             embed := some (opts.embed.getD (.ebool false)) } := by
  unfold modelSave modelBroadcast modelValidates
  cases hv : opts.validate.getD true with
  | false => cases hs : env.schemaResolved <;> simp [hv, hs]
  | true => cases hs : env.schemaResolved <;> simp [hv, hs, hvalid]

/-- Witness for the amended C7: a plain save (no embed key) delivers
embed false; an explicit embed list passes through. -/
theorem save_embed_defaults_false_witness :
    (okEnv.validatorSuccess && okEnv.relValid) = true ∧
    (modelSave okEnv [] {}).2.1 =
      some { validate := some true, embed := some (.ebool false) } ∧
    (modelSave okEnv [] { embed := some (.elist ["tags"]) }).2.1 =
      some { validate := some true, embed := some (.elist ["tags"]) } :=
  ⟨by decide,
    by
      have h1 := save_embed_defaults_false okEnv [] {} (by decide)
      rw [h1]
      rfl,
    by
      have h2 := save_embed_defaults_false okEnv []
        { embed := some (.elist ["tags"]) } (by decide)
      rw [h2]
      rfl⟩

/-- C10: when validation passes (or is disabled) and Schema.broadcast
resolves, the promise returned by Model.broadcast — and therefore by
Model.save — resolves with `undefined` (the co-generator returns
nothing): never `true`, never the entity; the only distinguished
resolution value is `false` on validation failure, so success cannot be
detected by truthiness of the result. -/
theorem broadcast_success_resolves_undefined (env : BEnv)
    (errs0 : List (String × List String)) (opts : BroadcastOpts) (v : Value)
    (hok : opts.validate.getD true = false ∨
      (env.validatorSuccess && env.relValid) = true)
    (hres : env.schemaResolved = some v) :
    (modelBroadcast env errs0 opts).1 = .ok .undef ∧
    (modelSave env errs0 opts).1 = .ok .undef := by
  constructor
  · unfold modelBroadcast modelValidates
    rcases hok with hok | hok
    · simp [hok, hres]
    · cases hv : opts.validate.getD true <;> simp [hv, hok, hres]
  · unfold modelSave modelBroadcast modelValidates
    rcases hok with hok | hok
    · simp [hok, hres]
    · cases hv : opts.validate.getD true <;> simp [hv, hok, hres]

/-- Witness for C10: a valid entity saved against a resolving write. -/
theorem broadcast_success_resolves_undefined_witness :
    (({} : BroadcastOpts).validate.getD true = false ∨
      (okEnv.validatorSuccess && okEnv.relValid) = true) ∧
    okEnv.schemaResolved = some .null ∧
    (modelBroadcast okEnv [] {}).1 = .ok .undef ∧
    (modelSave okEnv [] {}).1 = .ok .undef :=
  ⟨Or.inr (by decide), by decide,
    (broadcast_success_resolves_undefined okEnv [] {} .null
      (Or.inr (by decide)) (by decide)).1,
    (broadcast_success_resolves_undefined okEnv [] {} .null
      (Or.inr (by decide)) (by decide)).2⟩

/-- External state the Through proxy operates against: the owning
parent's exists flag, the foreign-key mapping `relThrough.match(parent)`
computed by the Relationship collaborator, the pivot model's
construction defaults (the Document constructor populates
`extend(schema.defaults, data)`), and the genuine pivot Collection
`parent.get(throughRelationName)` as an ordered list of pivot-entity
field mappings.  Collection.set/push are modelled from the spec:
positional assignment and append on the ordered item sequence
(collection.js is not part of the verified tree). -/
structure ThroughEnv where
  parentExists : Bool
  matchSeed : List (String × Value) := []
  pivotDefaults : List (String × Value) := []
  pivotColl : List (List (String × Value)) := []
deriving DecidableEq, Repr

/-- Through._item (through.js 295-303): creates a pivot entity seeded
with the parent's matching foreign keys exactly when the parent already
exists (empty seed otherwise) — `through.create(seed)` lays the seed
over the pivot schema defaults — then sets the `using` field to the
supplied far-side value through the cast pipeline (`item.set` runs
Document._set; its graph bookkeeping is covered by the Document
model). -/
def throughItem (castP : String → Value → Value) (usingField : String)
    (env : ThroughEnv) (v : Value) : List (String × Value) :=
  mset (extendAssoc env.pivotDefaults
    (if env.parentExists then env.matchSeed else []))
    usingField (castP usingField v)

/-- Through.set (through.js 272-276): wraps the far-side value into a
fresh pivot item and delegates the positional assignment onto the pivot
Collection. -/
def throughSet (castP : String → Value → Value) (usingField : String)
    (env : ThroughEnv) (i : Nat) (v : Value) : ThroughEnv :=
  { env with pivotColl :=
      env.pivotColl.set i (throughItem castP usingField env v) }

/-- Through.push (through.js 284-287): wraps the far-side value into a
fresh pivot item and delegates the append onto the pivot Collection. -/
def throughPush (castP : String → Value → Value) (usingField : String)
    (env : ThroughEnv) (v : Value) : ThroughEnv :=
  { env with pivotColl :=
      env.pivotColl ++ [throughItem castP usingField env v] }

/-- Through.get (through.js 241-253): reads the pivot item at the
offset from the genuine Collection and unwraps its `using` field. -/
def throughGet (usingField : String) (env : ThroughEnv) (i : Nat) :
    Option Value :=
  match env.pivotColl.get? i with
  | some item => some (alookup item usingField)
  | none => none

/-- C9: Through.set and Through.push wrap the supplied far-side value
into a freshly created pivot entity — its `using` field holds the cast
of the value, its remaining fields are the pivot defaults overlaid with
the parent's matching foreign keys exactly when the parent already
exists (the seed stays empty otherwise) — and delegate the positional
set / append onto the genuine pivot Collection; reading the appended
slot back through the proxy returns the wrapped value. -/
theorem through_set_push_wrap (castP : String → Value → Value)
    (usingField : String) (env : ThroughEnv) (i : Nat) (v : Value) :
    (throughPush castP usingField env v).pivotColl =
      env.pivotColl ++ [throughItem castP usingField env v] ∧
    (throughSet castP usingField env i v).pivotColl =
      env.pivotColl.set i (throughItem castP usingField env v) ∧
    alookup (throughItem castP usingField env v) usingField =
      castP usingField v ∧
    (env.parentExists = true →
      throughItem castP usingField env v =
        mset (extendAssoc env.pivotDefaults env.matchSeed) usingField
          (castP usingField v)) ∧
    (env.parentExists = false →
      throughItem castP usingField env v =
        mset env.pivotDefaults usingField (castP usingField v)) ∧
    throughGet usingField (throughPush castP usingField env v)
        env.pivotColl.length = some (castP usingField v) := by
  refine ⟨rfl, rfl, ?_, ?_, ?_, ?_⟩
  · unfold throughItem
    exact alookup_mset_self _ _ _
  · intro hp
    unfold throughItem
    rw [if_pos hp]
  · intro hp
    unfold throughItem
    rw [if_neg (by rw [hp]; exact Bool.false_ne_true)]
    rfl
  · unfold throughGet throughPush
    have hidx : (env.pivotColl ++ [throughItem castP usingField env v]).get?
        env.pivotColl.length = some (throughItem castP usingField env v) :=
      List.get?_concat_length _ _
    simp only [hidx]
    unfold throughItem
    rw [alookup_mset_self]
